import Mathlib

/-
Verification of the fofou forum log-structured store (src/go/store.go)
against its natural-language specification.

The store is shallowly embedded: Go strings and byte slices become
`List Char`, Go `int` becomes `Int`, Go slices of records become Lean
lists, fallible operations return `Except Failure`, and a Go runtime
panic is modelled as the distinguished outcome `Failure.panicked`.
The durable log file is carried inside `Store` as the `log` field and
the content-addressed blob directory as the `blobs` field; the success
of each file-system write is an explicit boolean parameter of the
operation that performs it.  The SHA1 function is passed as an explicit
function parameter `shaFn`, since only its use as a content address
matters to the store's logic.
-/

set_option maxHeartbeats 4000000

/-- Decimal digit character for a digit value 0..9 (the digits used by Go's
fmt %d and strconv). Values ≥ 9 are clamped; the store only applies it to
values below 10. -/
def digChar (d : Nat) : Char :=
  match d with
  | 0 => '0'
  | 1 => '1'
  | 2 => '2'
  | 3 => '3'
  | 4 => '4'
  | 5 => '5'
  | 6 => '6'
  | 7 => '7'
  | 8 => '8'
  | _ => '9'

/-- Value of a decimal digit character, none for any other character. -/
def digVal? (c : Char) : Option Nat :=
  if c = '0' then some 0
  else if c = '1' then some 1
  else if c = '2' then some 2
  else if c = '3' then some 3
  else if c = '4' then some 4
  else if c = '5' then some 5
  else if c = '6' then some 6
  else if c = '7' then some 7
  else if c = '8' then some 8
  else if c = '9' then some 9
  else none

/-- Little-endian decimal digits of `n`, with explicit fuel (the store always
passes `fuel = n`, which is enough since a number has at most as many digits
as its value when positive). -/
def natDigsRev : Nat → Nat → List Nat
  | 0, _ => []
  | fuel + 1, n => if n = 0 then [] else n % 10 :: natDigsRev fuel (n / 10)

/-- Decimal representation of a natural, most significant digit first: the
model of Go's fmt %d on a non-negative value. -/
def natToStr (n : Nat) : List Char :=
  if n = 0 then ['0'] else ((natDigsRev n n).map digChar).reverse

/-- Decimal representation of a Go int: the model of fmt %d. -/
def intToStr (i : Int) : List Char :=
  if i < 0 then '-' :: natToStr (-i).toNat else natToStr i.toNat

def allDigits (s : List Char) : Bool :=
  s.all (fun c => (digVal? c).isSome)

def digitsToNat (s : List Char) : Nat :=
  s.foldl (fun a c => a * 10 + (digVal? c).getD 0) 0

/-- Model of Go strconv.Atoi: an optional sign followed by one or more
decimal digits, the whole string consumed; anything else is an error
(`none`).  Go additionally errors when the value overflows the machine
int; the log records the store itself writes stay far below that bound,
so the model keeps arbitrary precision. -/
def atoiGo (s : List Char) : Option Int :=
  match s with
  | [] => none
  | c :: rest =>
    if c = '+' then
      if rest ≠ [] ∧ allDigits rest then some ((digitsToNat rest : Nat) : Int) else none
    else if c = '-' then
      if rest ≠ [] ∧ allDigits rest then some (-((digitsToNat rest : Nat) : Int)) else none
    else if allDigits (c :: rest) then some ((digitsToNat (c :: rest) : Nat) : Int)
    else none

/-- Split a character list on a separator character; the model of Go
strings.Split.  Always returns one more chunk than there are separators. -/
def splitOnChar (sep : Char) : List Char → List (List Char)
  | [] => [[]]
  | c :: rest =>
    match splitOnChar sep rest with
    | [] => if c = sep then [[], []] else [[c]]
    | h :: t => if c = sep then [] :: h :: t else (c :: h) :: t

/-- Lowercase hexadecimal digit for a value 0..15 (Go encoding/hex). -/
def hexChr (d : Nat) : Char :=
  match d with
  | 0 => '0'
  | 1 => '1'
  | 2 => '2'
  | 3 => '3'
  | 4 => '4'
  | 5 => '5'
  | 6 => '6'
  | 7 => '7'
  | 8 => '8'
  | 9 => '9'
  | 10 => 'a'
  | 11 => 'b'
  | 12 => 'c'
  | 13 => 'd'
  | 14 => 'e'
  | _ => 'f'

/-- Hexadecimal digit value; Go encoding/hex accepts both cases. -/
def hexVal? (c : Char) : Option Nat :=
  match digVal? c with
  | some d => some d
  | none =>
    if c = 'a' ∨ c = 'A' then some 10
    else if c = 'b' ∨ c = 'B' then some 11
    else if c = 'c' ∨ c = 'C' then some 12
    else if c = 'd' ∨ c = 'D' then some 13
    else if c = 'e' ∨ c = 'E' then some 14
    else if c = 'f' ∨ c = 'F' then some 15
    else none

/-- Model of Go hex.EncodeToString on a byte list (bytes are naturals
below 256, two lowercase hex characters per byte). -/
def hexEncode : List Nat → List Char
  | [] => []
  | b :: rest => hexChr (b / 16) :: hexChr (b % 16) :: hexEncode rest

/-- Model of Go hex.DecodeString: an even number of hex digits, or an
error (`none`). -/
def hexDecode? : List Char → Option (List Nat)
  | [] => some []
  | [_] => none
  | c1 :: c2 :: rest =>
    match hexVal? c1, hexVal? c2, hexDecode? rest with
    | some h, some l, some bs => some ((h * 16 + l) :: bs)
    | _, _, _ => none

def b64Alphabet : List Char :=
  ("ABCDEFGHIJKLMNOPQRSTUVWXYZabcdefghijklmnopqrstuvwxyz0123456789+/").data

def b64Chr (n : Nat) : Char :=
  b64Alphabet.getD n '?'

def b64ValAux : List Char → Char → Nat → Option Nat
  | [], _, _ => none
  | a :: rest, c, i => if a = c then some i else b64ValAux rest c (i + 1)

def b64Val? (c : Char) : Option Nat :=
  b64ValAux b64Alphabet c 0

/-- Model of Go base64.StdEncoding.EncodeToString on a byte list. -/
def b64Encode : List Nat → List Char
  | [] => []
  | [b1] => [b64Chr (b1 / 4), b64Chr (b1 % 4 * 16), '=', '=']
  | [b1, b2] => [b64Chr (b1 / 4), b64Chr (b1 % 4 * 16 + b2 / 16), b64Chr (b2 % 16 * 4), '=']
  | b1 :: b2 :: b3 :: rest =>
    b64Chr (b1 / 4) :: b64Chr (b1 % 4 * 16 + b2 / 16) ::
      b64Chr (b2 % 16 * 4 + b3 / 64) :: b64Chr (b3 % 64) :: b64Encode rest

/-- Model of Go base64.StdEncoding.DecodeString: four-character quanta,
padding characters only at the very end. -/
def b64Decode? : List Char → Option (List Nat)
  | [] => some []
  | [c1, c2, '=', '='] =>
    match b64Val? c1, b64Val? c2 with
    | some v1, some v2 => some [v1 * 4 + v2 / 16]
    | _, _ => none
  | [c1, c2, c3, '='] =>
    match b64Val? c1, b64Val? c2, b64Val? c3 with
    | some v1, some v2, some v3 => some [v1 * 4 + v2 / 16, v2 % 16 * 16 + v3 / 4]
    | _, _, _ => none
  | c1 :: c2 :: c3 :: c4 :: rest =>
    match b64Val? c1, b64Val? c2, b64Val? c3, b64Val? c4, b64Decode? rest with
    | some v1, some v2, some v3, some v4, some bs =>
      some ((v1 * 4 + v2 / 16) :: (v2 % 16 * 16 + v3 / 4) :: (v3 % 4 * 64 + v4) :: bs)
    | _, _, _, _, _ => none
  | _ => none

/-- Model of remSep (store.go): strings.Replace(s, "|", "", -1). -/
def remSep (s : List Char) : List Char :=
  s.filter (fun c => c ≠ '|')

/-- A post, as kept in memory by the store (store.go `Post`).  The
back-reference `Topic *Topic` is a convenience pointer and is represented
where needed by the owning topic's id, not stored here. -/
structure Post where
  id : Int
  createdOn : Int
  messageSha1 : List Nat
  userNameInternal : List Char
  ipAddrInternal : List Char
  isDeleted : Bool
  deriving DecidableEq

structure Topic where
  id : Int
  subject : List Char
  posts : List Post
  deriving DecidableEq

/-- Outcome of a fallible operation: a Go error value, or a Go runtime
panic (which in the source aborts the program rather than returning). -/
inductive Failure where
  | errored (msg : List Char)
  | panicked (msg : List Char)
  deriving DecidableEq

deriving instance DecidableEq for Except

/-- The store state (store.go `Store`).  `topics` is the owned topic
sequence; `posts` is the global chronological post sequence, held in the
source as raw `*Post` pointers and represented here as stable
(topic id, post id) handles; `log` is the contents of the durable data
file; `blobs` is the content-addressed message-body store. -/
structure Store where
  topics : List Topic
  posts : List (Int × Int)
  log : List Char
  blobs : List (List Nat × List Char)
  deriving DecidableEq

def emptyStore : Store :=
  { topics := [], posts := [], log := [], blobs := [] }

def dfltPost : Post :=
  { id := 0, createdOn := 0, messageSha1 := [], userNameInternal := [],
    ipAddrInternal := [], isDeleted := false }

def dfltTopic : Topic :=
  { id := 0, subject := [], posts := [] }

/-- Model of ipAddrToInternal (store.go): a 4-part dotted address is
packed into 4 bytes (strconv.Atoi per part, errors yielding 0, the Go
byte conversion truncating mod 256) and hex-encoded; anything else is
passed through unchanged. -/
def ipAddrToInternal (ipAddr : List Char) : List Char :=
  let parts := splitOnChar '.' ipAddr
  if parts.length = 4 then
    hexEncode (parts.map (fun p => (((atoiGo p).getD 0).emod 256).toNat))
  else ipAddr

/-- Sprintf %d.%d.%d.%d over the four decoded bytes. -/
def fmtDotted (d : List Nat) : List Char :=
  natToStr (d.getD 0 0) ++ '.' :: natToStr (d.getD 1 0) ++ '.' :: natToStr (d.getD 2 0)
    ++ '.' :: natToStr (d.getD 3 0)

/-- Model of ipAddrInternalToOriginal (store.go): a 7-character string is
first tried as a legacy hex form with the leading zero nibble dropped, an
8-character string as the regular hex form; anything else (or a failed
hex decode) is returned unchanged. -/
def ipAddrInternalToOriginal (s : List Char) : List Char :=
  match (if s.length = 7 then hexDecode? ('0' :: s) else none) with
  | some d => fmtDotted d
  | none =>
    match (if s.length = 8 then hexDecode? s else none) with
    | some d => fmtDotted d
    | none => s


/-- Index of the first topic with the given id (model of
Store.topicByIdUnlocked, which returns a pointer to that element). -/
def topicIdxById? : List Topic → Int → Option Nat
  | [], _ => none
  | t :: rest, i => if t.id = i then some 0 else (topicIdxById? rest i).map (fun k => k + 1)

/-- Model of Store.findPost.  The source returns `&topic.Posts[postId-1]`;
the model returns the (topic index, post index) pair that pointer denotes.
The source checks only `postId > len(topic.Posts)`, so a postId ≤ 0 for an
existing topic indexes the slice out of range and panics. -/
def findPost (s : Store) (topicId postId : Int) : Except Failure (Nat × Nat) :=
  match topicIdxById? s.topics topicId with
  | none => .error (.errored (("didn't find a topic with this id").data))
  | some ti =>
    if postId > ((s.topics.getD ti dfltTopic).posts.length : Int) then
      .error (.errored (("didn't find post with this id").data))
    else if postId ≤ 0 then
      .error (.panicked (("runtime error: index out of range").data))
    else .ok (ti, (postId - 1).toNat)

/-- Overwrite the isDeleted flag of the post at the given indices. -/
def setFlag (s : Store) (ti pi : Nat) (v : Bool) : Store :=
  match s.topics.get? ti with
  | none => s
  | some t =>
    match t.posts.get? pi with
    | none => s
    | some p =>
      { s with topics := s.topics.set ti { t with posts := t.posts.set pi { p with isDeleted := v } } }

/-- Model of Store.DeletePost: find the post, reject if already deleted,
append a D record (appendOk models the success of the file write), then
set the flag.  Every failure path leaves the store, its log included,
unchanged. -/
def DeletePost (s : Store) (topicId postId : Int) (appendOk : Bool) :
    Except Failure Unit × Store :=
  match findPost s topicId postId with
  | .error e => (.error e, s)
  | .ok (ti, pi) =>
    let p := (s.topics.getD ti dfltTopic).posts.getD pi dfltPost
    if p.isDeleted then (.error (.errored (("post already deleted").data)), s)
    else
      let str := ('D' :: intToStr topicId) ++ ('|' :: intToStr postId) ++ ['\n']
      if appendOk then (.ok (), { setFlag s ti pi true with log := s.log ++ str })
      else (.error (.errored (("log append failed").data)), s)

/-- Model of Store.UndeletePost, symmetric to DeletePost. -/
def UndeletePost (s : Store) (topicId postId : Int) (appendOk : Bool) :
    Except Failure Unit × Store :=
  match findPost s topicId postId with
  | .error e => (.error e, s)
  | .ok (ti, pi) =>
    let p := (s.topics.getD ti dfltTopic).posts.getD pi dfltPost
    if ¬ p.isDeleted then (.error (.errored (("post already not deleted").data)), s)
    else
      let str := ('U' :: intToStr topicId) ++ ('|' :: intToStr postId) ++ ['\n']
      if appendOk then (.ok (), { setFlag s ti pi false with log := s.log ++ str })
      else (.error (.errored (("log append failed").data)), s)

/-- copy(p.MessageSha1[:], sha1): a 20-byte array receives the digest. -/
def fix20 (l : List Nat) : List Nat :=
  (l ++ List.replicate 20 0).take 20

/-- The T record written for a new topic: Sprintf("T%d|%s\n", id, subject). -/
def topicRecord (t : Topic) : List Char :=
  ('T' :: intToStr t.id) ++ ('|' :: t.subject) ++ ['\n']

/-- The P record written for a new post:
Sprintf("P%d|%d|%s|%s|%s|%s\n", ...), the base64 digest with its trailing
'=' dropped. -/
def postRecord (topicId postId : Int) (now : Int) (sha : List Nat)
    (ipAddrInternal userNameInternal : List Char) : List Char :=
  ('P' :: intToStr topicId) ++ ('|' :: intToStr postId) ++ ('|' :: intToStr now)
    ++ ('|' :: (b64Encode sha).dropLast) ++ ('|' :: ipAddrInternal)
    ++ ('|' :: userNameInternal) ++ ['\n']

/-- Model of Store.addNewPost.  `topic` is the topic being posted to and
`tIdx` its index in `s.topics` (`none` exactly when the source passes
newTopic = true and a fresh topic value).  `blobOk` and `appendOk` model
the success of the blob-file write and of the log append.  The source
order is: compute digest and post, write blob, format records, append
log, then update the in-memory state; each failure returns before the
following step. -/
def addNewPost (shaFn : List Char → List Nat) (now : Int) (blobOk appendOk : Bool)
    (msg user ipAddr : List Char) (topic : Topic) (tIdx : Option Nat) (s : Store) :
    Except Failure Unit × Store :=
  let sha := fix20 (shaFn msg)
  let p : Post :=
    { id := (topic.posts.length : Int) + 1, createdOn := now, messageSha1 := sha,
      userNameInternal := remSep user,
      ipAddrInternal := remSep (ipAddrToInternal ipAddr), isDeleted := false }
  if ¬ blobOk then (.error (.errored (("blob write failed").data)), s)
  else
    let s1 := { s with blobs := s.blobs ++ [(sha, msg)] }
    let topicStr := if tIdx = none then topicRecord topic else []
    let str := topicStr ++ postRecord topic.id p.id now sha p.ipAddrInternal p.userNameInternal
    if ¬ appendOk then (.error (.errored (("log append failed").data)), s1)
    else
      let t2 := { topic with posts := topic.posts ++ [p] }
      let topics2 :=
        match tIdx with
        | some i => s1.topics.set i t2
        | none => s1.topics ++ [t2]
      let s2 := { s1 with topics := topics2 }
      let s3 := { s2 with posts := s2.posts ++ [(topic.id, p.id)] }
      (.ok (), { s3 with log := s3.log ++ str })

/-- Model of Store.CreateNewPost (createTopicWithFirstPost): a fresh topic
whose id is the last topic's id + 1 (1 when none exist), then addNewPost
with newTopic = true.  Returns the assigned topic id with the outcome. -/
def CreateNewPost (shaFn : List Char → List Nat) (now : Int) (blobOk appendOk : Bool)
    (subject msg user ipAddr : List Char) (s : Store) :
    (Int × Except Failure Unit) × Store :=
  let tid : Int :=
    match s.topics.getLast? with
    | none => 1
    | some t => t.id + 1
  let topic : Topic := { id := tid, subject := remSep subject, posts := [] }
  let r := addNewPost shaFn now blobOk appendOk msg user ipAddr topic none s
  ((tid, r.1), r.2)

/-- Model of Store.AddPostToTopic: validate the topic id, then addNewPost
with newTopic = false. -/
def AddPostToTopic (shaFn : List Char → List Nat) (now : Int) (blobOk appendOk : Bool)
    (topicId : Int) (msg user ipAddr : List Char) (s : Store) :
    Except Failure Unit × Store :=
  match topicIdxById? s.topics topicId with
  | none => (.error (.errored (("invalid topicId").data)), s)
  | some i =>
    addNewPost shaFn now blobOk appendOk msg user ipAddr (s.topics.getD i dfltTopic) (some i) s

/-- Model of Store.blockIp.  Kept verbatim from the source: the record is
Sprintf("U:%s|1", ipAddrInternal) — tag 'U', a ':' separator, and no
trailing newline — and the append error is ignored (the method returns
nothing). -/
def blockIp (s : Store) (ipAddr : List Char) (appendOk : Bool) : Store :=
  let str := 'U' :: ':' :: (ipAddrToInternal ipAddr ++ ['|', '1'])
  if appendOk then { s with log := s.log ++ str } else s

/-- Model of Store.unblockIp: Sprintf("U:%s|0", ipAddrInternal), likewise
without a trailing newline. -/
def unblockIp (s : Store) (ipAddr : List Char) (appendOk : Bool) : Store :=
  let str := 'U' :: ':' :: (ipAddrToInternal ipAddr ++ ['|', '0'])
  if appendOk then { s with log := s.log ++ str } else s

/-- The paging loop of Store.GetTopics: starting `i` topics back from the
newest, take up to `fuel` topics walking towards the oldest.  The source
indexes `store.topics[len-1-i]` after checking only `idx < 0`, so a
negative starting offset indexes past the end and panics. -/
def getTopicsAux (topics : List Topic) : Nat → Int → Except Failure (List Topic × Int)
  | 0, i => .ok ([], i)
  | fuel + 1, i =>
    let idx : Int := (topics.length : Int) - 1 - i
    if idx < 0 then .ok ([], i)
    else
      match topics.get? idx.toNat with
      | none => .error (.panicked (("runtime error: index out of range").data))
      | some t =>
        match getTopicsAux topics fuel (i + 1) with
        | .error e => .error e
        | .ok (res, f) => .ok (t :: res, f)

/-- Model of Store.GetTopics.  `withDeleted` is accepted and ignored, as
in the source.  After the loop the next offset wraps to 0 whenever
len(topics) - 1 - newFrom ≤ 0. -/
def GetTopics (s : Store) (nMax off : Int) (withDeleted : Bool) :
    Except Failure (List Topic × Int) :=
  match getTopicsAux s.topics nMax.toNat off with
  | .error e => .error e
  | .ok (res, i) =>
    .ok (res, if (s.topics.length : Int) - 1 - i ≤ 0 then 0 else i)

/-- Resolve a global-post-sequence handle to the post it denotes. -/
def derefHandle (s : Store) (h : Int × Int) : Option Post :=
  match topicIdxById? s.topics h.1 with
  | none => none
  | some ti =>
    if h.2 ≤ 0 then none
    else (s.topics.getD ti dfltTopic).posts.get? (h.2 - 1).toNat

/-- The filtered newest-first scan shared by GetPostsByUserInternal and
GetPostsByIpInternal: walk the global post sequence from the newest end,
append each match, and stop only once the result has grown beyond
`maxN`. -/
def scanPostsAux (pred : Post → Bool) (maxN : Int) (deref : Int × Int → Option Post) :
    List (Int × Int) → List Post → List Post
  | [], res => res
  | h :: rest, res =>
    match deref h with
    | none => scanPostsAux pred maxN deref rest res
    | some p =>
      if pred p then
        if ((res.length : Int) + 1) > maxN then res ++ [p]
        else scanPostsAux pred maxN deref rest (res ++ [p])
      else scanPostsAux pred maxN deref rest res

/-- Model of Store.GetPostsByUserInternal. -/
def GetPostsByUserInternal (s : Store) (userNameInternal : List Char) (maxN : Int) :
    List Post :=
  scanPostsAux (fun p => p.userNameInternal = userNameInternal) maxN (derefHandle s)
    s.posts.reverse []

/-- Model of Store.GetPostsByIpInternal. -/
def GetPostsByIpInternal (s : Store) (ipAddrInternal : List Char) (maxN : Int) :
    List Post :=
  scanPostsAux (fun p => p.ipAddrInternal = ipAddrInternal) maxN (derefHandle s)
    s.posts.reverse []

/-- Replay state built by parseTopics: the topic sequence, the
topic-id-to-topic map (an association list whose front entry wins,
matching Go map overwrite; values are indices into `topics`, the value
model of the source's `*Topic` pointers), the global post sequence
(`recentPosts` in the source) as handles, and the number of id-mismatch
diagnostics printed by parsePost. -/
structure RState where
  topics : List Topic
  tmap : List (Int × Nat)
  recent : List (Int × Int)
  diagCount : Nat
  deriving DecidableEq

def emptyRState : RState :=
  { topics := [], tmap := [], recent := [], diagCount := 0 }

def lookupTmap : List (Int × Nat) → Int → Option Nat
  | [], _ => none
  | kv :: rest, i => if kv.1 = i then some kv.2 else lookupTmap rest i

/-- Model of parseTopic (store.go): "T<id>|<subject>"; the line is passed
whole and the tag stripped here, as the source does with line[1:]. -/
def parseTopic (line : List Char) : Except Failure Topic :=
  let parts := splitOnChar '|' line.tail
  if parts.length ≠ 2 then .error (.panicked (("len(parts) != 2").data))
  else
    match atoiGo (parts.getD 0 []) with
    | none => .error (.panicked (("idStr is not a number").data))
    | some i => .ok { id := i, subject := parts.getD 1 [], posts := [] }

/-- Model of parsePost (store.go).  On success returns the post (whose id
is always the positional `len(t.Posts)+1`, regardless of the stored id
field), the index of its topic, and whether the id-mismatch diagnostic
was printed. -/
def parsePost (line : List Char) (st : RState) : Except Failure (Post × Nat × Bool) :=
  let parts := splitOnChar '|' line.tail
  if parts.length ≠ 6 then .error (.panicked (("len(parts) != 6").data))
  else
    let msgSha1b64 := parts.getD 3 [] ++ ['=']
    match atoiGo (parts.getD 0 []) with
    | none => .error (.panicked (("topicIdStr not a number").data))
    | some topicId =>
      match atoiGo (parts.getD 1 []) with
      | none => .error (.panicked (("idStr not a number").data))
      | some storedId =>
        match atoiGo (parts.getD 2 []) with
        | none => .error (.panicked (("createdOnSeconds not a number").data))
        | some createdOn =>
          match b64Decode? msgSha1b64 with
          | none => .error (.panicked (("msgSha1b64 not valid base64").data))
          | some msgSha1 =>
            if msgSha1.length ≠ 20 then .error (.panicked (("len(msgSha1) != 20").data))
            else
              match lookupTmap st.tmap topicId with
              | none => .error (.panicked (("didn't find topic with a given topicId").data))
              | some ti =>
                let t := st.topics.getD ti dfltTopic
                let realPostId : Int := (t.posts.length : Int) + 1
                .ok ({ id := realPostId, createdOn := createdOn,
                       messageSha1 := msgSha1,
                       userNameInternal := parts.getD 5 [],
                       ipAddrInternal := parts.getD 4 [], isDeleted := false },
                     ti, storedId ≠ realPostId)

/-- Model of parseDelUndel (store.go): "<topicId>|<postId>", panicking on
malformed input. -/
def parseDelUndel (d : List Char) : Except Failure (Int × Int) :=
  let parts := splitOnChar '|' d
  if parts.length ≠ 2 then .error (.panicked (("len(parts) != 2").data))
  else
    match atoiGo (parts.getD 0 []) with
    | none => .error (.panicked (("invalid topicId").data))
    | some a =>
      match atoiGo (parts.getD 1 []) with
      | none => .error (.panicked (("invalid postId").data))
      | some b => .ok (a, b)

/-- Model of findPostToDelUndel (store.go): resolve the topic through the
id map and the post by its 1-based id; the source checks only
`postId > len(topic.Posts)` before indexing `topic.Posts[postId-1]`, so a
postId ≤ 0 panics with an index error. -/
def findPostToDelUndel (d : List Char) (st : RState) : Except Failure (Nat × Nat) :=
  match parseDelUndel d with
  | .error e => .error e
  | .ok tp =>
    match lookupTmap st.tmap tp.1 with
    | none => .error (.panicked (("no topic with that id").data))
    | some ti =>
      let t := st.topics.getD ti dfltTopic
      if tp.2 > (t.posts.length : Int) then .error (.panicked (("invalid postId").data))
      else if tp.2 ≤ 0 then .error (.panicked (("runtime error: index out of range").data))
      else .ok (ti, (tp.2 - 1).toNat)

/-- One iteration of the parseTopics loop: dispatch on the line's first
character (panicking on an empty line, where the source would index
line[0] out of range) and fold the record into the replay state. -/
def parseLine (st : RState) (line : List Char) : Except Failure RState :=
  match line with
  | [] => .error (.panicked (("runtime error: index out of range").data))
  | c :: _ =>
    if c = 'T' then
      match parseTopic line with
      | .error e => .error e
      | .ok t =>
        .ok { st with topics := st.topics ++ [t], tmap := (t.id, st.topics.length) :: st.tmap }
    else if c = 'P' then
      match parsePost line st with
      | .error e => .error e
      | .ok pr =>
        let t := st.topics.getD pr.2.1 dfltTopic
        let t2 := { t with posts := t.posts ++ [pr.1] }
        .ok { st with topics := st.topics.set pr.2.1 t2,
                      recent := st.recent ++ [(t.id, pr.1.id)],
                      diagCount := st.diagCount + (if pr.2.2 then 1 else 0) }
    else if c = 'D' then
      match findPostToDelUndel line.tail st with
      | .error e => .error e
      | .ok ij =>
        let t := st.topics.getD ij.1 dfltTopic
        let p := t.posts.getD ij.2 dfltPost
        if p.isDeleted then .error (.panicked (("post already deleted").data))
        else
          .ok { st with topics :=
                  st.topics.set ij.1 { t with posts := t.posts.set ij.2 { p with isDeleted := true } } }
    else if c = 'U' then
      match findPostToDelUndel line.tail st with
      | .error e => .error e
      | .ok ij =>
        let t := st.topics.getD ij.1 dfltTopic
        let p := t.posts.getD ij.2 dfltPost
        if ¬ p.isDeleted then .error (.panicked (("post already undeleted").data))
        else
          .ok { st with topics :=
                  st.topics.set ij.1 { t with posts := t.posts.set ij.2 { p with isDeleted := false } } }
    else if c = 'B' then .ok st
    else .error (.panicked (("Unexpected line type").data))

/-- The line-splitting discipline of parseTopics: records are the
newline-terminated chunks; data that does not end in a newline makes the
loop search for '\n' in a non-empty remainder and fail, which the source
turns into the panic "idx shouldn't be -1". -/
def splitLogLines (d : List Char) : Except Failure (List (List Char)) :=
  if d = [] then .ok []
  else
    let cs := splitOnChar '\n' d
    match cs.getLast? with
    | none => .ok []
    | some last =>
      if last = [] then .ok cs.dropLast
      else .error (.panicked (("idx shouldn't be -1").data))

def foldLines : RState → List (List Char) → Except Failure RState
  | st, [] => .ok st
  | st, l :: rest =>
    match parseLine st l with
    | .error e => .error e
    | .ok st2 => foldLines st2 rest

/-- Model of parseTopics (store.go), the startup replay: consume the log
contents line by line and fold every record into the replay state.  Any
panic in the source aborts the replay; here it surfaces as `.error`. -/
def parseTopics (d : List Char) : Except Failure RState :=
  match splitLogLines d with
  | .error e => .error e
  | .ok lines => foldLines emptyRState lines


/-
Heap-level model of the global post sequence.

The source keeps `store.posts []*Post`, raw pointers into the
`topic.Posts` backing arrays, and `topic.Posts = append(...)` moves the
elements to a fresh backing array whenever the capacity is exhausted
(guaranteed by the Go specification when cap = 0; the gc toolchain grows
small slices by doubling, so a one-element array is full again at the
second append).  To examine what those pointers observe, this second
model makes the backing arrays explicit: `arrays` is the arena of post
arrays, a topic holds the id of its current backing array, and the
global sequence holds (array id, index) pointers.  Writing a post's flag
goes through the topic's current array; a pointer taken before a
reallocation keeps addressing the old array.  The log and blob side of
addNewPost is independent of this aliasing and is omitted here; the
digest field is filled with a fixed placeholder for the same reason.
-/

structure HTopic where
  id : Int
  subject : List Char
  arr : Nat
  deriving DecidableEq

structure HStore where
  arrays : List (List Post)
  caps : List Nat
  topics : List HTopic
  posts : List (Nat × Nat)
  deriving DecidableEq

def emptyHStore : HStore :=
  { arrays := [], caps := [], topics := [], posts := [] }

def hTopicIdxById? : List HTopic → Int → Option Nat
  | [], _ => none
  | t :: rest, i => if t.id = i then some 0 else (hTopicIdxById? rest i).map (fun k => k + 1)

def dfltHTopic : HTopic :=
  { id := 0, subject := [], arr := 0 }

/-- Go append on a posts array: in place while below capacity, otherwise
copy to a fresh array of doubled capacity (gc growth for small slices;
a capacity-0 slice must reallocate by the language specification).
Returns the store and the id of the array now backing the slice. -/
def hAppend (hs : HStore) (aid : Nat) (p : Post) : HStore × Nat :=
  let contents := hs.arrays.getD aid []
  let cap := hs.caps.getD aid 0
  if contents.length < cap then
    ({ hs with arrays := hs.arrays.set aid (contents ++ [p]) }, aid)
  else
    let nid := hs.arrays.length
    ({ hs with arrays := hs.arrays ++ [contents ++ [p]],
               caps := hs.caps ++ [max 1 (2 * cap)] }, nid)

/-- Heap-level CreateNewPost: fresh topic (make([]Post, 0), capacity 0),
first post appended, the topic value pushed onto store.topics, and the
pointer &topic.Posts[0] recorded in the global sequence. -/
def hCreateNewPost (hs : HStore) (subject user ipAddr : List Char) (now : Int) : HStore :=
  let tid : Int :=
    match hs.topics.getLast? with
    | none => 1
    | some t => t.id + 1
  let aid0 := hs.arrays.length
  let hs1 := { hs with arrays := hs.arrays ++ [[]], caps := hs.caps ++ [0] }
  let p : Post :=
    { id := 1, createdOn := now, messageSha1 := List.replicate 20 0,
      userNameInternal := remSep user,
      ipAddrInternal := remSep (ipAddrToInternal ipAddr), isDeleted := false }
  let r := hAppend hs1 aid0 p
  { r.1 with topics := r.1.topics ++ [{ id := tid, subject := remSep subject, arr := r.2 }],
             posts := r.1.posts ++ [(r.2, 0)] }

/-- Heap-level AddPostToTopic: append through the topic's current backing
array and record the pointer to the new element. -/
def hAddPostToTopic (hs : HStore) (topicId : Int) (user ipAddr : List Char) (now : Int) :
    HStore :=
  match hTopicIdxById? hs.topics topicId with
  | none => hs
  | some ti =>
    let t := hs.topics.getD ti dfltHTopic
    let len := (hs.arrays.getD t.arr []).length
    let p : Post :=
      { id := (len : Int) + 1, createdOn := now, messageSha1 := List.replicate 20 0,
        userNameInternal := remSep user,
        ipAddrInternal := remSep (ipAddrToInternal ipAddr), isDeleted := false }
    let r := hAppend hs t.arr p
    { r.1 with topics := r.1.topics.set ti { t with arr := r.2 },
               posts := r.1.posts ++ [(r.2, len)] }

/-- Heap-level DeletePost: resolve the post through store.topics (always
the current backing array) and set its flag there. -/
def hDeletePost (hs : HStore) (topicId postId : Int) : HStore :=
  match hTopicIdxById? hs.topics topicId with
  | none => hs
  | some ti =>
    let t := hs.topics.getD ti dfltHTopic
    let contents := hs.arrays.getD t.arr []
    if postId > (contents.length : Int) ∨ postId ≤ 0 then hs
    else
      let pi := (postId - 1).toNat
      let p := contents.getD pi dfltPost
      { hs with arrays := hs.arrays.set t.arr (contents.set pi { p with isDeleted := true }) }

/-- What a global-sequence pointer observes. -/
def hDeref (hs : HStore) (ptr : Nat × Nat) : Post :=
  (hs.arrays.getD ptr.1 []).getD ptr.2 dfltPost

/-- Heap-level GetRecentPosts: the last `maxN` pointers of the global
sequence, newest first, dereferenced. -/
def hGetRecentPosts (hs : HStore) (maxN : Nat) : List Post :=
  (hs.posts.reverse.take maxN).map (hDeref hs)

/-- The post as stored in its owning topic (resolved through
store.topics, as DeletePost and the topic pages do). -/
def hPostInTopic (hs : HStore) (topicId postId : Int) : Post :=
  match hTopicIdxById? hs.topics topicId with
  | none => dfltPost
  | some ti =>
    (hs.arrays.getD (hs.topics.getD ti dfltHTopic).arr []).getD (postId - 1).toNat dfltPost

/-- The C3 scenario: create a topic (post 1), append post 2 — which
relocates the backing array — then delete post 1. -/
def c3Scenario : HStore :=
  hDeletePost
    (hAddPostToTopic
      (hCreateNewPost emptyHStore (("subj").data) (("alice").data) (("1.2.3.4").data) 0)
      1 (("bob").data) (("1.2.3.4").data) 1)
    1 1


/-- One mutation call of the store API, with its external inputs (wall
clock for post creation). -/
inductive Mut where
  | create (subject msg user ipAddr : List Char) (now : Int)
  | add (topicId : Int) (msg user ipAddr : List Char) (now : Int)
  | del (topicId postId : Int)
  | undel (topicId postId : Int)
  | block (ipAddr : List Char)
  | unblock (ipAddr : List Char)

/-- Apply one mutation with both I/O effects succeeding; a call the store
rejects leaves the state unchanged. -/
def applyMut (shaFn : List Char → List Nat) (s : Store) : Mut → Store
  | .create subject msg user ipAddr now =>
    (CreateNewPost shaFn now true true subject msg user ipAddr s).2
  | .add topicId msg user ipAddr now =>
    (AddPostToTopic shaFn now true true topicId msg user ipAddr s).2
  | .del topicId postId => (DeletePost s topicId postId true).2
  | .undel topicId postId => (UndeletePost s topicId postId true).2
  | .block ipAddr => blockIp s ipAddr true
  | .unblock ipAddr => unblockIp s ipAddr true

/-- The store state after a sequence of mutation calls on a freshly
opened, empty store. -/
def runMuts (shaFn : List Char → List Nat) (ms : List Mut) : Store :=
  ms.foldl (applyMut shaFn) emptyStore

/-- The id sequence 1..n. -/
def idSeq : Nat → List Int
  | 0 => []
  | n + 1 => idSeq n ++ [(n : Int) + 1]

/-- The monotonic-ids invariant: topic ids are exactly 1..N in order, and
each topic's post ids are exactly 1..M in order. -/
def goodIds (s : Store) : Prop :=
  s.topics.map Topic.id = idSeq s.topics.length ∧
    ∀ t ∈ s.topics, t.posts.map Post.id = idSeq t.posts.length

/-- The spec's AlreadyInTargetState error kind, as it appears in the
source: the two errors.New messages of DeletePost and UndeletePost. -/
def AlreadyInTargetState (e : Failure) : Prop :=
  e = .errored (("post already deleted").data) ∨
    e = .errored (("post already not deleted").data)

/-- The C1 scenario: a successful createTopicWithFirstPost followed by a
successful blockIp on a freshly opened store. -/
def c1Store : Store :=
  blockIp
    ((CreateNewPost (fun _ => List.replicate 20 0) 0 true true
        (("hello").data) (("hi there").data) (("alice").data) (("127.0.0.1").data)
        emptyStore).2)
    (("1.2.3.4").data) true

/-- C1: the round-trip property fails on the code.  After the successful
mutation sequence [createTopicWithFirstPost, blockIp], the in-memory
state holds one topic, but replaying the written log panics (blockIp
appended "U:01020304|1" with no trailing newline, so the replay loop
finds a non-empty remainder with no '\n' and hits the
"idx shouldn't be -1" panic): reopening cannot reproduce any state at
all, let alone an observationally identical one. -/
theorem c1_roundtrip_broken_by_blockIp :
    c1Store.topics.length = 1 ∧
      parseTopics c1Store.log = .error (.panicked (("idx shouldn't be -1").data)) := by
  decide

/-- C2: the records blockIp and unblockIp append.  The claim says one
'B'-tagged, newline-terminated record per call; the code instead appends
Sprintf("U:%s|1") / Sprintf("U:%s|0") — first character 'U', not 'B',
and no newline terminator at all. -/
theorem c2_block_record_wrong_tag_and_unterminated :
    (blockIp emptyStore (("1.2.3.4").data) true).log = (("U:01020304|1").data) ∧
      (blockIp emptyStore (("1.2.3.4").data) true).log.getD 0 ' ' ≠ 'B' ∧
      '\n' ∉ (blockIp emptyStore (("1.2.3.4").data) true).log ∧
      (unblockIp emptyStore (("1.2.3.4").data) true).log = (("U:01020304|0").data) ∧
      (unblockIp emptyStore (("1.2.3.4").data) true).log.getD 0 ' ' ≠ 'B' ∧
      '\n' ∉ (unblockIp emptyStore (("1.2.3.4").data) true).log := by
  decide

/-- C3: after deletePost(1, 1) the post resolved through its owning topic
has isDeleted = true, but the same post observed through the global post
sequence (the raw pointer recorded before the topic's backing array was
relocated by the second append, also what getRecentPosts returns) still
shows isDeleted = false. -/
theorem c3_global_sequence_inconsistent_after_growth :
    (hPostInTopic c3Scenario 1 1).isDeleted = true ∧
      (hDeref c3Scenario (c3Scenario.posts.getD 0 (0, 0))).isDeleted = false ∧
      ((hGetRecentPosts c3Scenario 2).getD 1 dfltPost).isDeleted = false := by
  decide

/-- C4: deleting an already-deleted post and undeleting an already-active
post both return the AlreadyInTargetState error of the source and leave
the whole store — log included — unchanged. -/
theorem c4_noop_transition_rejected :
    ∀ (s : Store) (topicId postId : Int) (ok : Bool) (ti pi : Nat),
      (findPost s topicId postId = .ok (ti, pi) →
        ((s.topics.getD ti dfltTopic).posts.getD pi dfltPost).isDeleted = true →
        DeletePost s topicId postId ok =
            (.error (.errored (("post already deleted").data)), s) ∧
          AlreadyInTargetState (.errored (("post already deleted").data))) ∧
      (findPost s topicId postId = .ok (ti, pi) →
        ((s.topics.getD ti dfltTopic).posts.getD pi dfltPost).isDeleted = false →
        UndeletePost s topicId postId ok =
            (.error (.errored (("post already not deleted").data)), s) ∧
          AlreadyInTargetState (.errored (("post already not deleted").data))) := by
  intro s topicId postId ok ti pi
  constructor
  · intro h hdel
    refine ⟨?_, Or.inl rfl⟩
    simp only [DeletePost, h, hdel]
    simp
  · intro h hdel
    refine ⟨?_, Or.inr rfl⟩
    simp only [UndeletePost, h, hdel]
    simp

/-- Concrete store for the C4 witness: post 1 of topic 1 is deleted,
post 2 is active. -/
def c4Store : Store :=
  { topics :=
      [{ id := 1, subject := (("a").data),
         posts := [{ dfltPost with id := 1, isDeleted := true },
                   { dfltPost with id := 2, isDeleted := false }] }],
    posts := [(1, 1), (1, 2)], log := [], blobs := [] }

/-- Witness for C4 at a concrete store. -/
theorem c4_noop_transition_rejected_witness :
    (DeletePost c4Store 1 1 true =
        (.error (.errored (("post already deleted").data)), c4Store) ∧
      AlreadyInTargetState (.errored (("post already deleted").data))) ∧
      (UndeletePost c4Store 1 2 true =
          (.error (.errored (("post already not deleted").data)), c4Store) ∧
        AlreadyInTargetState (.errored (("post already not deleted").data))) :=
  ⟨(c4_noop_transition_rejected c4Store 1 1 true 0 0).1 (by decide) (by decide),
   (c4_noop_transition_rejected c4Store 1 2 true 0 1).2 (by decide) (by decide)⟩

/-- True when a result is the model of a Go runtime panic. -/
def resPanicked : Except Failure Unit → Bool
  | .error (.panicked _) => true
  | _ => false

/-- Concrete store for C5: one topic with one active post. -/
def c5Store : Store :=
  { topics := [{ id := 1, subject := (("a").data), posts := [{ dfltPost with id := 1 }] }],
    posts := [(1, 1)], log := [], blobs := [] }

/-- C5 counterexample: the claim quantifies over all integer arguments
including zero, but deletePost(1, 0) (and undeletePost(1, 0)) on a store
whose topic 1 exists panics — findPost checks only
postId > len(topic.Posts) and then indexes topic.Posts[postId-1]. -/
theorem c5_counterexample_postid_zero_panics :
    (DeletePost c5Store 1 0 true).1 =
        .error (.panicked (("runtime error: index out of range").data)) ∧
      (UndeletePost c5Store 1 0 true).1 =
        .error (.panicked (("runtime error: index out of range").data)) := by
  decide

theorem findPost_not_panicked (s : Store) (topicId postId : Int) (hpos : 1 ≤ postId)
    (m : List Char) : findPost s topicId postId ≠ .error (.panicked m) := by
  unfold findPost
  split
  · simp
  · split_ifs with h1 h2
    · simp
    · omega
    · simp

theorem DeletePost_safe (s : Store) (topicId postId : Int) (ok : Bool) (hpos : 1 ≤ postId) :
    resPanicked (DeletePost s topicId postId ok).1 = false ∧
      ((DeletePost s topicId postId ok).1 ≠ .ok () → (DeletePost s topicId postId ok).2 = s) := by
  cases hf : findPost s topicId postId with
  | error e =>
    cases e with
    | errored m => simp [DeletePost, hf, resPanicked]
    | panicked m => exact absurd hf (findPost_not_panicked s topicId postId hpos m)
  | ok tp =>
    obtain ⟨ti, pi⟩ := tp
    simp only [DeletePost, hf]
    by_cases hd : ((s.topics.getD ti dfltTopic).posts.getD pi dfltPost).isDeleted
    · rw [if_pos hd]
      simp [resPanicked]
    · rw [if_neg hd]
      cases ok with
      | true => simp [resPanicked]
      | false => simp [resPanicked]

theorem UndeletePost_safe (s : Store) (topicId postId : Int) (ok : Bool) (hpos : 1 ≤ postId) :
    resPanicked (UndeletePost s topicId postId ok).1 = false ∧
      ((UndeletePost s topicId postId ok).1 ≠ .ok () → (UndeletePost s topicId postId ok).2 = s) := by
  cases hf : findPost s topicId postId with
  | error e =>
    cases e with
    | errored m => simp [UndeletePost, hf, resPanicked]
    | panicked m => exact absurd hf (findPost_not_panicked s topicId postId hpos m)
  | ok tp =>
    obtain ⟨ti, pi⟩ := tp
    simp only [UndeletePost, hf]
    by_cases hd : ((s.topics.getD ti dfltTopic).posts.getD pi dfltPost).isDeleted
    · rw [if_neg (fun h => h hd)]
      cases ok with
      | true => simp [resPanicked]
      | false => simp [resPanicked]
    · rw [if_pos hd]
      simp [resPanicked]

/-- C5 as amended: for every store, every topicId and every postId ≥ 1,
deletePost and undeletePost never panic, and whenever they do not
succeed they return an error with the entire store state unchanged.
(For postId ≤ 0 naming an existing topic the code instead crashes, per
the counterexample.) -/
theorem c5_no_crash_and_no_partial_state :
    ∀ (s : Store) (topicId postId : Int) (ok : Bool), 1 ≤ postId →
      (resPanicked (DeletePost s topicId postId ok).1 = false ∧
        ((DeletePost s topicId postId ok).1 ≠ .ok () → (DeletePost s topicId postId ok).2 = s)) ∧
      (resPanicked (UndeletePost s topicId postId ok).1 = false ∧
        ((UndeletePost s topicId postId ok).1 ≠ .ok () →
          (UndeletePost s topicId postId ok).2 = s)) :=
  fun s t p ok h => ⟨DeletePost_safe s t p ok h, UndeletePost_safe s t p ok h⟩

/-- Witness for C5 at a concrete store and arguments (unknown topic id 5,
postId 1): both calls fail without panic and without any state change. -/
theorem c5_no_crash_and_no_partial_state_witness :
    resPanicked (DeletePost c5Store 5 1 true).1 = false ∧
      (DeletePost c5Store 5 1 true).2 = c5Store ∧
      resPanicked (UndeletePost c5Store 5 1 true).1 = false ∧
      (UndeletePost c5Store 5 1 true).2 = c5Store := by
  have h := c5_no_crash_and_no_partial_state c5Store 5 1 true (by decide)
  exact ⟨h.1.1, h.1.2 (by decide), h.2.1, h.2.2 (by decide)⟩

def c7TopicOld : Topic :=
  { id := 1, subject := (("old").data), posts := [{ dfltPost with id := 1 }] }

def c7TopicNew : Topic :=
  { id := 2, subject := (("new").data), posts := [{ dfltPost with id := 1 }] }

def c7Store : Store :=
  { topics := [c7TopicOld, c7TopicNew], posts := [(1, 1), (2, 1)], log := [], blobs := [] }

/-- C7 counterexample: with two topics, getTopics(pageSize 1, offset 0)
returns the newest topic, and one older topic — the oldest — remains
unreturned; the claim then requires a non-zero next-offset, but the code
returns 0 (the wrap test is len-1-newFrom ≤ 0, an off-by-one). -/
theorem c7_counterexample_wraps_with_topic_remaining :
    GetTopics c7Store 1 0 false = .ok ([c7TopicNew], 0) ∧
      (0 : Int) + 1 < (c7Store.topics.length : Int) := by
  decide

theorem getTopicsAux_ok (topics : List Topic) :
    ∀ (fuel : Nat) (i : Int), 0 ≤ i →
      ∃ res : List Topic, getTopicsAux topics fuel i = .ok (res, i + res.length) := by
  intro fuel
  induction fuel with
  | zero =>
    intro i hi
    exact ⟨[], by simp [getTopicsAux]⟩
  | succ n ih =>
    intro i hi
    by_cases hidx : ((topics.length : Int) - 1 - i) < 0
    · refine ⟨[], ?_⟩
      simp [getTopicsAux, hidx]
    · have hlt : ((topics.length : Int) - 1 - i).toNat < topics.length := by omega
      obtain ⟨res, hres⟩ := ih (i + 1) (by omega)
      refine ⟨topics.get ⟨((topics.length : Int) - 1 - i).toNat, hlt⟩ :: res, ?_⟩
      rw [getTopicsAux]
      rw [if_neg hidx]
      rw [List.get?_eq_get hlt]
      rw [hres]
      simp
      omega

/-- C7 as amended: for a non-negative offset the call succeeds, and the
returned next-offset equals offset + page length except that it wraps to
0 exactly when len(topics) - 1 - (offset + page length) ≤ 0, i.e. already
when exactly one topic — the oldest — remains unreturned (not only when
none remain). -/
theorem c7_next_offset_characterized :
    ∀ (s : Store) (nMax off : Int) (w : Bool) (res : List Topic) (nf : Int),
      0 ≤ off → GetTopics s nMax off w = .ok (res, nf) →
      nf = if (s.topics.length : Int) - 1 - (off + res.length) ≤ 0 then 0
           else off + res.length := by
  intro s nMax off w res nf hoff hg
  obtain ⟨res2, hres2⟩ := getTopicsAux_ok s.topics nMax.toNat off hoff
  simp only [GetTopics, hres2] at hg
  have h1 : res2 = res ∧
      (if (s.topics.length : Int) - 1 - (off + res2.length) ≤ 0 then 0
       else off + (res2.length : Int)) = nf := by
    constructor
    · exact (Prod.mk.injEq _ _ _ _ ▸ (Except.ok.injEq _ _ ▸ hg)).1
    · exact (Prod.mk.injEq _ _ _ _ ▸ (Except.ok.injEq _ _ ▸ hg)).2
  obtain ⟨hres, hnf⟩ := h1
  subst hres
  exact hnf.symm

/-- Witness for C7: at the concrete two-topic store, pageSize 1 and
offset 0, the next-offset computed by getTopics is the wrapped value. -/
theorem c7_next_offset_characterized_witness :
    (0 : Int) = if (c7Store.topics.length : Int) - 1 - (0 + ([c7TopicNew] : List Topic).length) ≤ 0
                then 0 else 0 + ([c7TopicNew] : List Topic).length :=
  c7_next_offset_characterized c7Store 1 0 false [c7TopicNew] 0 (by decide) (by decide)

def c8Post1 : Post :=
  { dfltPost with id := 1, userNameInternal := (("bob").data),
                  ipAddrInternal := (("01020304").data) }

def c8Post2 : Post :=
  { dfltPost with id := 2, userNameInternal := (("bob").data),
                  ipAddrInternal := (("01020304").data) }

def c8Store : Store :=
  { topics := [{ id := 1, subject := (("a").data), posts := [c8Post1, c8Post2] }],
    posts := [(1, 1), (1, 2)], log := [], blobs := [] }

/-- C8 counterexample: with two matching posts and n = 1, both queries
return 2 posts — the loop appends first and only then checks
len(res) > max, so it stops one match too late. -/
theorem c8_counterexample_returns_more_than_n :
    (GetPostsByUserInternal c8Store (("bob").data) 1).length = 2 ∧
      (GetPostsByIpInternal c8Store (("01020304").data) 1).length = 2 := by
  decide

theorem scanPostsAux_eq (pred : Post → Bool) (maxN : Int) (deref : Int × Int → Option Post) :
    ∀ (l : List (Int × Int)) (res : List Post), res.length ≤ maxN.toNat →
      scanPostsAux pred maxN deref l res =
        res ++ ((l.filterMap deref).filter pred).take (maxN.toNat + 1 - res.length) := by
  intro l
  induction l with
  | nil =>
    intro res h
    simp [scanPostsAux]
  | cons hd tl ih =>
    intro res hres
    cases hd' : deref hd with
    | none =>
      rw [scanPostsAux, hd']
      rw [ih res hres]
      simp [List.filterMap_cons, hd']
    | some p =>
      by_cases hp : pred p
      · rw [scanPostsAux, hd']
        simp only [hp, if_true]
        by_cases hstop : ((res.length : Int) + 1) > maxN
        · rw [if_pos hstop]
          have hlen : maxN.toNat = res.length := by omega
          simp [List.filterMap_cons, hd', hp, hlen]
        · rw [if_neg hstop]
          have hres2 : (res ++ [p]).length ≤ maxN.toNat := by
            simp
            omega
          rw [ih (res ++ [p]) hres2]
          have harith : maxN.toNat + 1 - res.length = (maxN.toNat + 1 - (res ++ [p]).length) + 1 := by
            simp
            omega
          simp [List.filterMap_cons, hd', hp, harith]
      · rw [scanPostsAux, hd']
        simp only [hp, if_false]
        rw [ih res hres]
        simp [List.filterMap_cons, hd', hp]

/-- C8 as amended: both queries return exactly the matching posts of the
newest-first scan of the global post sequence truncated to n + 1
entries — so up to n + 1 results, one more than the claimed bound n
(negative n behaving like 0). -/
theorem c8_filtered_scan_bounded_by_n_plus_one :
    ∀ (s : Store) (u ipv : List Char) (maxN : Int),
      GetPostsByUserInternal s u maxN =
          ((s.posts.reverse.filterMap (derefHandle s)).filter
              (fun p => p.userNameInternal = u)).take (maxN.toNat + 1) ∧
        (GetPostsByUserInternal s u maxN).length ≤ maxN.toNat + 1 ∧
        GetPostsByIpInternal s ipv maxN =
          ((s.posts.reverse.filterMap (derefHandle s)).filter
              (fun p => p.ipAddrInternal = ipv)).take (maxN.toNat + 1) ∧
        (GetPostsByIpInternal s ipv maxN).length ≤ maxN.toNat + 1 := by
  intro s u ipv maxN
  have h1 := scanPostsAux_eq (fun p => p.userNameInternal = u) maxN (derefHandle s)
    s.posts.reverse [] (by simp)
  have h2 := scanPostsAux_eq (fun p => p.ipAddrInternal = ipv) maxN (derefHandle s)
    s.posts.reverse [] (by simp)
  simp only [List.nil_append, List.length_nil, Nat.sub_zero] at h1 h2
  refine ⟨h1, ?_, h2, ?_⟩
  · rw [GetPostsByUserInternal, h1]
    simp
  · rw [GetPostsByIpInternal, h2]
    simp

/-- C10: the post-creating mutations follow the order validate → write
blob → append log → update memory, failures aborting all later steps:
an unknown topicId on addPostToTopic fails before anything is written; a
blob-write failure leaves the store (log and memory included) untouched;
a log-append failure leaves memory and log untouched with only the
already-written blob persisted; on success the blob is written, the log
grows by the new records, and the in-memory state is updated. -/
theorem c10_mutation_order_and_atomicity :
    ∀ (shaFn : List Char → List Nat) (now : Int) (subject msg user ipAddr : List Char)
      (s : Store) (topicId : Int) (i : Nat) (ok2 : Bool),
      ((CreateNewPost shaFn now false ok2 subject msg user ipAddr s).2 = s ∧
        (CreateNewPost shaFn now false ok2 subject msg user ipAddr s).1.2 =
          .error (.errored (("blob write failed").data))) ∧
      ((CreateNewPost shaFn now true false subject msg user ipAddr s).2 =
          { s with blobs := s.blobs ++ [(fix20 (shaFn msg), msg)] } ∧
        (CreateNewPost shaFn now true false subject msg user ipAddr s).1.2 =
          .error (.errored (("log append failed").data))) ∧
      (topicIdxById? s.topics topicId = none →
        ∀ b a, AddPostToTopic shaFn now b a topicId msg user ipAddr s =
          (.error (.errored (("invalid topicId").data)), s)) ∧
      (topicIdxById? s.topics topicId = some i →
        (AddPostToTopic shaFn now false ok2 topicId msg user ipAddr s).2 = s ∧
          (AddPostToTopic shaFn now true false topicId msg user ipAddr s).2 =
            { s with blobs := s.blobs ++ [(fix20 (shaFn msg), msg)] }) ∧
      ((CreateNewPost shaFn now true true subject msg user ipAddr s).1.2 = .ok () ∧
        (CreateNewPost shaFn now true true subject msg user ipAddr s).2.blobs =
          s.blobs ++ [(fix20 (shaFn msg), msg)] ∧
        (CreateNewPost shaFn now true true subject msg user ipAddr s).2.topics.length =
          s.topics.length + 1 ∧
        ∃ recStr, recStr ≠ [] ∧
          (CreateNewPost shaFn now true true subject msg user ipAddr s).2.log =
            s.log ++ recStr) := by
  intro shaFn now subject msg user ipAddr s topicId i ok2
  refine ⟨⟨rfl, rfl⟩, ⟨rfl, rfl⟩, ?_, ?_, rfl, rfl, ?_, ?_⟩
  · intro hnone b a
    simp [AddPostToTopic, hnone]
  · intro hsome
    refine ⟨?_, ?_⟩
    · simp [AddPostToTopic, hsome, addNewPost]
    · simp [AddPostToTopic, hsome, addNewPost]
  · simp [CreateNewPost, addNewPost]
  · simp only [CreateNewPost, addNewPost]
    refine ⟨_, ?_, rfl⟩
    simp [topicRecord]

def c10Sha : List Char → List Nat :=
  fun _ => List.replicate 20 0

def c10Store : Store :=
  { topics := [{ id := 1, subject := (("t").data), posts := [{ dfltPost with id := 1 }] }],
    posts := [(1, 1)], log := [], blobs := [] }

/-- Witness for C10 at a concrete store: unknown topic id 9 fails with no
effect at all; a blob-write failure on topic 1 and on a fresh topic
leaves the store untouched. -/
theorem c10_mutation_order_and_atomicity_witness :
    AddPostToTopic c10Sha 0 true true 9 (("m").data) (("u").data) (("1.2.3.4").data) c10Store =
        (.error (.errored (("invalid topicId").data)), c10Store) ∧
      (AddPostToTopic c10Sha 0 false true 1 (("m").data) (("u").data) (("1.2.3.4").data)
          c10Store).2 = c10Store ∧
      (CreateNewPost c10Sha 0 false true (("s").data) (("m").data) (("u").data)
          (("1.2.3.4").data) c10Store).2 = c10Store := by
  have h := c10_mutation_order_and_atomicity c10Sha 0 (("s").data) (("m").data) (("u").data)
    (("1.2.3.4").data) c10Store 9 0 true
  have h2 := c10_mutation_order_and_atomicity c10Sha 0 (("s").data) (("m").data) (("u").data)
    (("1.2.3.4").data) c10Store 1 0 true
  exact ⟨h.2.2.1 (by decide) true true, (h2.2.2.2.1 (by decide)).1, h.1.1⟩

theorem digVal?_digChar (d : Nat) (h : d < 10) : digVal? (digChar d) = some d := by
  interval_cases d <;> rfl

theorem digVal?_isSome_of_image (c : Char) (h : ∃ d, d < 10 ∧ c = digChar d) :
    (digVal? c).isSome := by
  obtain ⟨d, hd, rfl⟩ := h
  rw [digVal?_digChar d hd]
  rfl

theorem natDigsRev_lt_ten : ∀ (fuel n : Nat), ∀ d ∈ natDigsRev fuel n, d < 10 := by
  intro fuel
  induction fuel with
  | zero => intro n d hd; simp [natDigsRev] at hd
  | succ f ih =>
    intro n d hd
    by_cases h0 : n = 0
    · simp [natDigsRev, h0] at hd
    · rw [natDigsRev, if_neg h0] at hd
      rcases List.mem_cons.mp hd with h | h
      · omega
      · exact ih (n / 10) d h

theorem natDigsRev_foldr : ∀ (fuel n : Nat), n ≤ fuel →
    (natDigsRev fuel n).foldr (fun d a => a * 10 + d) 0 = n := by
  intro fuel
  induction fuel with
  | zero =>
    intro n h
    interval_cases n
    simp [natDigsRev]
  | succ f ih =>
    intro n h
    by_cases h0 : n = 0
    · simp [natDigsRev, h0]
    · rw [natDigsRev, if_neg h0]
      simp only [List.foldr_cons]
      rw [ih (n / 10) (by omega)]
      omega

theorem foldl_digVal_map (l : List Nat) (h : ∀ d ∈ l, d < 10) :
    ∀ a : Nat, (l.map digChar).foldl (fun a c => a * 10 + (digVal? c).getD 0) a =
      l.foldl (fun a d => a * 10 + d) a := by
  induction l with
  | nil => intro a; rfl
  | cons d rest ih =>
    intro a
    simp only [List.map_cons, List.foldl_cons]
    rw [digVal?_digChar d (h d (List.mem_cons_self d rest))]
    exact ih (fun x hx => h x (List.mem_cons_of_mem d hx)) _

theorem digitsToNat_natToStr (n : Nat) : digitsToNat (natToStr n) = n := by
  by_cases h0 : n = 0
  · subst h0; rfl
  · rw [natToStr, if_neg h0, digitsToNat]
    have hlt := natDigsRev_lt_ten n n
    rw [← List.map_reverse]
    rw [foldl_digVal_map ((natDigsRev n n).reverse) (fun d hd => hlt d (List.mem_reverse.mp hd)) 0]
    rw [List.foldl_reverse]
    exact natDigsRev_foldr n n le_rfl

theorem natToStr_chars (n : Nat) :
    ∀ c ∈ natToStr n, ∃ d, d < 10 ∧ c = digChar d := by
  intro c hc
  by_cases h0 : n = 0
  · subst h0
    simp [natToStr] at hc
    exact ⟨0, by omega, hc⟩
  · rw [natToStr, if_neg h0] at hc
    rw [List.mem_reverse] at hc
    obtain ⟨d, hd, rfl⟩ := List.mem_map.mp hc
    exact ⟨d, natDigsRev_lt_ten n n d hd, rfl⟩

theorem natToStr_ne_nil (n : Nat) : natToStr n ≠ [] := by
  by_cases h0 : n = 0
  · subst h0; simp [natToStr]
  · rw [natToStr, if_neg h0]
    simp only [ne_eq, List.reverse_eq_nil_iff, List.map_eq_nil_iff]
    cases n with
    | zero => exact absurd rfl h0
    | succ m => simp [natDigsRev]

theorem allDigits_natToStr (n : Nat) : allDigits (natToStr n) = true := by
  rw [allDigits, List.all_eq_true]
  intro c hc
  exact digVal?_isSome_of_image c (natToStr_chars n c hc)

theorem atoiGo_natToStr (n : Nat) : atoiGo (natToStr n) = some (n : Int) := by
  rcases hs : natToStr n with _ | ⟨c, rest⟩
  · exact absurd hs (natToStr_ne_nil n)
  · have hc : ∃ d, d < 10 ∧ c = digChar d := by
      apply natToStr_chars n
      rw [hs]
      exact List.mem_cons_self c rest
    have hcsome : (digVal? c).isSome := digVal?_isSome_of_image c hc
    have hplus : c ≠ '+' := by
      intro h; rw [h] at hcsome; simp [digVal?] at hcsome
    have hminus : c ≠ '-' := by
      intro h; rw [h] at hcsome; simp [digVal?] at hcsome
    rw [atoiGo]
    rw [if_neg hplus, if_neg hminus]
    have hall : allDigits (c :: rest) = true := by
      rw [← hs]; exact allDigits_natToStr n
    rw [if_pos hall]
    have : digitsToNat (c :: rest) = n := by
      rw [← hs]; exact digitsToNat_natToStr n
    rw [this]

theorem splitOnChar_ne_nil (sep : Char) : ∀ l, splitOnChar sep l ≠ [] := by
  intro l
  induction l with
  | nil => simp [splitOnChar]
  | cons c rest ih =>
    rcases h : splitOnChar sep rest with _ | ⟨hd, tl⟩
    · exact absurd h ih
    · rw [splitOnChar, h]
      by_cases hc : c = sep
      · simp [hc]
      · simp [hc]

theorem splitOnChar_no_sep (sep : Char) : ∀ l, sep ∉ l → splitOnChar sep l = [l] := by
  intro l
  induction l with
  | nil => intro _; rfl
  | cons c rest ih =>
    intro h
    have hc : c ≠ sep := by
      intro hh
      subst hh
      exact h (List.mem_cons_self c rest)
    have hrest : sep ∉ rest := fun hh => h (List.mem_cons_of_mem c hh)
    rw [splitOnChar, ih hrest]
    simp [hc]

theorem splitOnChar_append (sep : Char) :
    ∀ (xs ys : List Char), sep ∉ xs →
      splitOnChar sep (xs ++ sep :: ys) = xs :: splitOnChar sep ys := by
  intro xs
  induction xs with
  | nil =>
    intro ys _
    rw [List.nil_append]
    rcases h : splitOnChar sep ys with _ | ⟨hd, tl⟩
    · exact absurd h (splitOnChar_ne_nil sep ys)
    · rw [splitOnChar, h]
      simp
  | cons c rest ih =>
    intro ys h
    have hc : c ≠ sep := by
      intro hh
      subst hh
      exact h (List.mem_cons_self c rest)
    have hrest : sep ∉ rest := fun hh => h (List.mem_cons_of_mem c hh)
    rw [List.cons_append, splitOnChar, ih ys hrest]
    simp [hc]

theorem hexVal?_hexChr (d : Nat) (h : d < 16) : hexVal? (hexChr d) = some d := by
  interval_cases d <;> rfl

theorem hexDecode?_hexEncode : ∀ (bs : List Nat), (∀ b ∈ bs, b < 256) →
    hexDecode? (hexEncode bs) = some bs := by
  intro bs
  induction bs with
  | nil => intro _; rfl
  | cons b rest ih =>
    intro h
    have hb : b < 256 := h b (List.mem_cons_self b rest)
    rw [hexEncode]
    rw [show ∀ x y l, hexDecode? (x :: y :: l) =
      (match hexVal? x, hexVal? y, hexDecode? l with
       | some h, some lo, some bs => some ((h * 16 + lo) :: bs)
       | _, _, _ => none) from fun x y l => rfl]
    rw [hexVal?_hexChr (b / 16) (by omega), hexVal?_hexChr (b % 16) (by omega)]
    rw [ih (fun x hx => h x (List.mem_cons_of_mem b hx))]
    have hb2 : b / 16 * 16 + b % 16 = b := by omega
    show some ((b / 16 * 16 + b % 16) :: rest) = some (b :: rest)
    rw [hb2]

theorem hexEncode_length : ∀ bs : List Nat, (hexEncode bs).length = 2 * bs.length := by
  intro bs
  induction bs with
  | nil => rfl
  | cons b rest ih =>
    rw [hexEncode]
    simp [ih]
    omega

/-- The canonical dotted-quad form of four byte values, as Go formats
addresses: %d components joined by dots. -/
def dottedQuad (a b c d : Nat) : List Char :=
  natToStr a ++ '.' :: (natToStr b ++ '.' :: (natToStr c ++ '.' :: natToStr d))

theorem dot_not_in_natToStr (n : Nat) : '.' ∉ natToStr n := by
  intro h
  obtain ⟨d, hd, hcd⟩ := natToStr_chars n '.' h
  interval_cases d <;> exact absurd hcd (by decide)

theorem splitOnChar_dottedQuad (a b c d : Nat) :
    splitOnChar '.' (dottedQuad a b c d) =
      [natToStr a, natToStr b, natToStr c, natToStr d] := by
  rw [dottedQuad]
  rw [splitOnChar_append '.' (natToStr a) _ (dot_not_in_natToStr a)]
  rw [splitOnChar_append '.' (natToStr b) _ (dot_not_in_natToStr b)]
  rw [splitOnChar_append '.' (natToStr c) _ (dot_not_in_natToStr c)]
  rw [splitOnChar_no_sep '.' (natToStr d) (dot_not_in_natToStr d)]

theorem ipAddrToInternal_dottedQuad (a b c d : Nat)
    (ha : a ≤ 255) (hb : b ≤ 255) (hc : c ≤ 255) (hd : d ≤ 255) :
    ipAddrToInternal (dottedQuad a b c d) = hexEncode [a, b, c, d] := by
  have e : ∀ x : Nat, x ≤ 255 → ((x : Int).emod 256).toNat = x := by
    intro x hx
    show ((x : Int) % 256).toNat = x
    omega
  simp only [ipAddrToInternal, splitOnChar_dottedQuad, List.length_cons, List.length_nil,
    List.map_cons, List.map_nil, atoiGo_natToStr, Option.getD_some,
    e a ha, e b hb, e c hc, e d hd]
  norm_num

theorem fmtDotted_eq_dottedQuad (a b c d : Nat) :
    fmtDotted [a, b, c, d] = dottedQuad a b c d := by
  simp [fmtDotted, dottedQuad]

theorem ipAddrInternalToOriginal_hexEncode4 (a b c d : Nat)
    (ha : a ≤ 255) (hb : b ≤ 255) (hc : c ≤ 255) (hd : d ≤ 255) :
    ipAddrInternalToOriginal (hexEncode [a, b, c, d]) = dottedQuad a b c d := by
  have hlen : (hexEncode [a, b, c, d]).length = 8 := by
    rw [hexEncode_length]
    rfl
  have hdec : hexDecode? (hexEncode [a, b, c, d]) = some [a, b, c, d] := by
    apply hexDecode?_hexEncode
    intro x hx
    simp at hx
    rcases hx with rfl | rfl | rfl | rfl <;> omega
  rw [ipAddrInternalToOriginal]
  rw [if_neg (by omega : ¬ (hexEncode [a, b, c, d]).length = 7)]
  rw [if_pos hlen, hdec]
  exact fmtDotted_eq_dottedQuad a b c d

theorem legacy7_decodes_like_8 (a b c d : Nat)
    (ha : a ≤ 15) (hb : b ≤ 255) (hc : c ≤ 255) (hd : d ≤ 255) :
    ipAddrInternalToOriginal ((hexEncode [a, b, c, d]).tail) =
      ipAddrInternalToOriginal (hexEncode [a, b, c, d]) := by
  have hsplit : hexEncode [a, b, c, d] = '0' :: (hexEncode [a, b, c, d]).tail := by
    have h16 : a / 16 = 0 := by omega
    show hexChr (a / 16) :: hexChr (a % 16) :: hexEncode [b, c, d] = _
    rw [h16]
    rfl
  have hlen : ((hexEncode [a, b, c, d]).tail).length = 7 := by
    have h8 := hexEncode_length [a, b, c, d]
    simp only [List.length_cons, List.length_nil] at h8
    simp only [List.length_tail]
    omega
  have hdec : hexDecode? ('0' :: (hexEncode [a, b, c, d]).tail) = some [a, b, c, d] := by
    rw [← hsplit]
    apply hexDecode?_hexEncode
    intro x hx
    simp at hx
    rcases hx with rfl | rfl | rfl | rfl <;> omega
  have hl : ipAddrInternalToOriginal ((hexEncode [a, b, c, d]).tail) = fmtDotted [a, b, c, d] := by
    rw [ipAddrInternalToOriginal, if_pos hlen, hdec]
  rw [hl, ipAddrInternalToOriginal_hexEncode4 a b c d (by omega) hb hc hd]
  exact fmtDotted_eq_dottedQuad a b c d

/-- C9: IP address encode/decode round trip.  Conjuncts: (1) the concrete
"1.2.3.4" round trip; (2) every canonical 4-part dotted address with
components 0..255 round-trips; (3) the legacy 7-character hex form (the
8-character form with its leading zero nibble dropped) decodes to the
same dotted address as the 8-character form; (4) any string that does
not split into 4 dot-separated parts passes through encoding
unmodified. -/
theorem c9_ip_encode_decode_roundtrip :
    ipAddrInternalToOriginal (ipAddrToInternal (("1.2.3.4").data)) = ("1.2.3.4").data ∧
      (∀ a b c d : Nat, a ≤ 255 → b ≤ 255 → c ≤ 255 → d ≤ 255 →
        ipAddrInternalToOriginal (ipAddrToInternal (dottedQuad a b c d)) =
          dottedQuad a b c d) ∧
      (∀ a b c d : Nat, a ≤ 15 → b ≤ 255 → c ≤ 255 → d ≤ 255 →
        ipAddrInternalToOriginal ((hexEncode [a, b, c, d]).tail) =
          ipAddrInternalToOriginal (hexEncode [a, b, c, d])) ∧
      (∀ ip : List Char, (splitOnChar '.' ip).length ≠ 4 → ipAddrToInternal ip = ip) := by
  refine ⟨by decide, ?_, legacy7_decodes_like_8, ?_⟩
  · intro a b c d ha hb hc hd
    rw [ipAddrToInternal_dottedQuad a b c d ha hb hc hd]
    exact ipAddrInternalToOriginal_hexEncode4 a b c d ha hb hc hd
  · intro ip hne
    rw [ipAddrToInternal]
    simp only [hne, if_false]

/-- Witness for C9 at concrete values: the general round trip at
10.0.0.138, the legacy 7-character case at 1.2.3.4, and pass-through on
"::1" (one dot-part). -/
theorem c9_ip_encode_decode_roundtrip_witness :
    ipAddrInternalToOriginal (ipAddrToInternal (dottedQuad 10 0 0 138)) =
        dottedQuad 10 0 0 138 ∧
      ipAddrInternalToOriginal ((hexEncode [1, 2, 3, 4]).tail) =
        ipAddrInternalToOriginal (hexEncode [1, 2, 3, 4]) ∧
      ipAddrToInternal (("::1").data) = ("::1").data :=
  ⟨c9_ip_encode_decode_roundtrip.2.1 10 0 0 138 (by decide) (by decide) (by decide) (by decide),
   c9_ip_encode_decode_roundtrip.2.2.1 1 2 3 4 (by decide) (by decide) (by decide) (by decide),
   c9_ip_encode_decode_roundtrip.2.2.2 (("::1").data) (by decide)⟩

theorem topicIdxById?_spec : ∀ (l : List Topic) (i : Int) (k : Nat),
    topicIdxById? l i = some k →
      ∃ h : k < l.length, (l.get ⟨k, h⟩).id = i := by
  intro l
  induction l with
  | nil => intro i k h; simp [topicIdxById?] at h
  | cons t rest ih =>
    intro i k h
    rw [topicIdxById?] at h
    by_cases ht : t.id = i
    · rw [if_pos ht] at h
      cases h
      exact ⟨by simp, ht⟩
    · rw [if_neg ht] at h
      cases hr : topicIdxById? rest i with
      | none => rw [hr] at h; simp at h
      | some k2 =>
        rw [hr] at h
        simp at h
        obtain ⟨hk, hid⟩ := ih i k2 hr
        subst h
        exact ⟨by simpa using Nat.succ_lt_succ hk, by simpa using hid⟩

theorem map_set_same {α β : Type} (f : α → β) : ∀ (l : List α) (i : Nat) (a : α),
    (h : i < l.length) → f a = f (l.get ⟨i, h⟩) → (l.set i a).map f = l.map f := by
  intro l
  induction l with
  | nil => intro i a h; simp at h
  | cons x rest ih =>
    intro i a h hf
    cases i with
    | zero =>
      simp only [List.set_cons_zero, List.map_cons]
      rw [hf]
      rfl
    | succ j =>
      simp only [List.set_cons_succ, List.map_cons]
      rw [ih j a (by simpa using Nat.lt_of_succ_lt_succ h) (by simpa using hf)]

/-- The last id of a contiguous id sequence is the length. -/
theorem lastId_of_idSeq (l : List Topic) (h1 : l.map Topic.id = idSeq l.length)
    (t : Topic) (hl : l.getLast? = some t) : t.id = (l.length : Int) := by
  have hmap : (l.map Topic.id).getLast? = some t.id := by
    rw [List.getLast?_map, hl]
    rfl
  rw [h1] at hmap
  have hne : l ≠ [] := by
    intro hnil
    rw [hnil] at hl
    simp at hl
  obtain ⟨k, hk⟩ : ∃ k, l.length = k + 1 :=
    ⟨l.length - 1, by have := List.length_pos.mpr hne; omega⟩
  rw [hk] at hmap
  rw [show idSeq (k + 1) = idSeq k ++ [(k : Int) + 1] from rfl] at hmap
  rw [List.getLast?_concat] at hmap
  have : (k : Int) + 1 = t.id := by
    injection hmap
  rw [hk]
  push_cast
  omega

theorem goodIds_emptyStore : goodIds emptyStore := by
  constructor
  · rfl
  · intro t ht
    simp [emptyStore] at ht

theorem snoc_postIds (l : List Post) (hl : l.map Post.id = idSeq l.length) (p : Post)
    (hp : p.id = (l.length : Int) + 1) :
    (l ++ [p]).map Post.id = idSeq ((l ++ [p]).length) := by
  rw [List.map_append, hl, List.map_cons, List.map_nil, hp, List.length_append]
  rfl

theorem snoc_topicIds (l : List Topic) (hl : l.map Topic.id = idSeq l.length) (t : Topic)
    (ht : t.id = (l.length : Int) + 1) :
    (l ++ [t]).map Topic.id = idSeq ((l ++ [t]).length) := by
  rw [List.map_append, hl, List.map_cons, List.map_nil, ht, List.length_append]
  rfl

theorem CreateNewPost_tid (shaFn : List Char → List Nat) (now : Int)
    (subject msg user ipAddr : List Char) (s : Store)
    (h1 : s.topics.map Topic.id = idSeq s.topics.length) :
    (CreateNewPost shaFn now true true subject msg user ipAddr s).1.1 =
      (s.topics.length : Int) + 1 := by
  show (match s.topics.getLast? with
        | none => (1 : Int)
        | some t => t.id + 1) = (s.topics.length : Int) + 1
  cases hl : s.topics.getLast? with
  | none =>
    have hnil : s.topics = [] := List.getLast?_eq_none.mp hl
    simp [hnil]
  | some t =>
    have := lastId_of_idSeq s.topics h1 t hl
    simp [this]

theorem CreateNewPost_topics (shaFn : List Char → List Nat) (now : Int)
    (subject msg user ipAddr : List Char) (s : Store) :
    (CreateNewPost shaFn now true true subject msg user ipAddr s).2.topics =
      s.topics ++
        [{ id := (CreateNewPost shaFn now true true subject msg user ipAddr s).1.1,
           subject := remSep subject,
           posts := [{ id := ((0 : Nat) : Int) + 1, createdOn := now,
                       messageSha1 := fix20 (shaFn msg),
                       userNameInternal := remSep user,
                       ipAddrInternal := remSep (ipAddrToInternal ipAddr),
                       isDeleted := false }] }] := rfl

theorem CreateNewPost_goodIds (shaFn : List Char → List Nat) (now : Int)
    (subject msg user ipAddr : List Char) (s : Store) (h : goodIds s) :
    goodIds (CreateNewPost shaFn now true true subject msg user ipAddr s).2 := by
  obtain ⟨h1, h2⟩ := h
  have htop := CreateNewPost_topics shaFn now subject msg user ipAddr s
  have htid := CreateNewPost_tid shaFn now subject msg user ipAddr s h1
  constructor
  · rw [htop]
    apply snoc_topicIds s.topics h1
    exact htid
  · intro t ht
    rw [htop] at ht
    rcases List.mem_append.mp ht with hmem | hmem
    · exact h2 t hmem
    · simp only [List.mem_singleton] at hmem
      subst hmem
      rfl

theorem addNewPost_topics_existing (shaFn : List Char → List Nat) (now : Int)
    (msg user ipAddr : List Char) (topic : Topic) (i : Nat) (s : Store) :
    (addNewPost shaFn now true true msg user ipAddr topic (some i) s).2.topics =
      s.topics.set i
        { topic with posts := topic.posts ++
            [{ id := (topic.posts.length : Int) + 1, createdOn := now,
               messageSha1 := fix20 (shaFn msg),
               userNameInternal := remSep user,
               ipAddrInternal := remSep (ipAddrToInternal ipAddr),
               isDeleted := false }] } := rfl

theorem AddPostToTopic_goodIds (shaFn : List Char → List Nat) (now : Int) (tid : Int)
    (msg user ipAddr : List Char) (s : Store) (h : goodIds s) :
    goodIds (AddPostToTopic shaFn now true true tid msg user ipAddr s).2 := by
  obtain ⟨h1, h2⟩ := h
  cases hidx : topicIdxById? s.topics tid with
  | none =>
    simp only [AddPostToTopic, hidx]
    exact ⟨h1, h2⟩
  | some i =>
    obtain ⟨hlt, hid⟩ := topicIdxById?_spec s.topics tid i hidx
    simp only [AddPostToTopic, hidx]
    have htop := addNewPost_topics_existing shaFn now msg user ipAddr
      (s.topics.getD i dfltTopic) i s
    have hgetd : s.topics.getD i dfltTopic = s.topics.get ⟨i, hlt⟩ :=
      List.getD_eq_get s.topics dfltTopic hlt
    have hmem : s.topics.getD i dfltTopic ∈ s.topics := by
      rw [hgetd]
      exact List.get_mem s.topics i hlt
    constructor
    · rw [htop, List.length_set]
      have hms : ∀ (t2 : Topic), t2.id = (s.topics.getD i dfltTopic).id →
          (s.topics.set i t2).map Topic.id = s.topics.map Topic.id := by
        intro t2 ht2
        apply map_set_same Topic.id s.topics i t2 hlt
        rw [ht2, hgetd]
      refine Eq.trans (hms _ ?_) h1
      rfl
    · intro t ht
      rw [htop] at ht
      rcases List.mem_or_eq_of_mem_set ht with hmem2 | rfl
      · exact h2 t hmem2
      · apply snoc_postIds
        · exact h2 _ hmem
        · rfl

theorem setFlag_goodIds (s : Store) (ti pi : Nat) (v : Bool) (h : goodIds s) :
    goodIds (setFlag s ti pi v) := by
  obtain ⟨h1, h2⟩ := h
  cases hg : s.topics.get? ti with
  | none =>
    simp only [setFlag, hg]
    exact ⟨h1, h2⟩
  | some t =>
    cases hp : t.posts.get? pi with
    | none =>
      simp only [setFlag, hg, hp]
      exact ⟨h1, h2⟩
    | some p =>
      simp only [setFlag, hg, hp]
      obtain ⟨hti, hgt⟩ := List.get?_eq_some.mp hg
      obtain ⟨hpi, hgp⟩ := List.get?_eq_some.mp hp
      have hms : ∀ (t2 : Topic), t2.id = t.id →
          (s.topics.set ti t2).map Topic.id = s.topics.map Topic.id := by
        intro t2 ht2
        apply map_set_same Topic.id s.topics ti t2 hti
        rw [ht2, hgt]
      have hms2 : ∀ (p2 : Post), p2.id = p.id →
          (t.posts.set pi p2).map Post.id = t.posts.map Post.id := by
        intro p2 hp2
        apply map_set_same Post.id t.posts pi p2 hpi
        rw [hp2, hgp]
      constructor
      · rw [List.length_set]
        refine Eq.trans (hms _ ?_) h1
        rfl
      · intro t' ht'
        rcases List.mem_or_eq_of_mem_set ht' with hmem | rfl
        · exact h2 t' hmem
        · show (t.posts.set pi { p with isDeleted := v }).map Post.id =
            idSeq (t.posts.set pi { p with isDeleted := v }).length
          rw [List.length_set]
          refine Eq.trans (hms2 _ ?_) (h2 t (List.get?_mem hg))
          rfl

theorem DeletePost_goodIds (s : Store) (t p : Int) (ok : Bool) (h : goodIds s) :
    goodIds (DeletePost s t p ok).2 := by
  cases hf : findPost s t p with
  | error e =>
    simp only [DeletePost, hf]
    exact h
  | ok tp =>
    obtain ⟨ti, pi⟩ := tp
    simp only [DeletePost, hf]
    by_cases hd : ((s.topics.getD ti dfltTopic).posts.getD pi dfltPost).isDeleted
    · rw [if_pos hd]
      exact h
    · rw [if_neg hd]
      cases ok with
      | false => exact h
      | true => exact setFlag_goodIds s ti pi true h

theorem UndeletePost_goodIds (s : Store) (t p : Int) (ok : Bool) (h : goodIds s) :
    goodIds (UndeletePost s t p ok).2 := by
  cases hf : findPost s t p with
  | error e =>
    simp only [UndeletePost, hf]
    exact h
  | ok tp =>
    obtain ⟨ti, pi⟩ := tp
    simp only [UndeletePost, hf]
    by_cases hd : ((s.topics.getD ti dfltTopic).posts.getD pi dfltPost).isDeleted
    · rw [if_neg (fun hh => hh hd)]
      cases ok with
      | false => exact h
      | true => exact setFlag_goodIds s ti pi false h
    · rw [if_pos hd]
      exact h

theorem applyMut_goodIds (shaFn : List Char → List Nat) (s : Store) (m : Mut)
    (h : goodIds s) : goodIds (applyMut shaFn s m) := by
  cases m with
  | create subject msg user ipAddr now => exact CreateNewPost_goodIds shaFn now subject msg user ipAddr s h
  | add tid msg user ipAddr now => exact AddPostToTopic_goodIds shaFn now tid msg user ipAddr s h
  | del t p => exact DeletePost_goodIds s t p true h
  | undel t p => exact UndeletePost_goodIds s t p true h
  | block ipAddr => exact h
  | unblock ipAddr => exact h

theorem runMuts_goodIds (shaFn : List Char → List Nat) (ms : List Mut) :
    goodIds (runMuts shaFn ms) := by
  rw [runMuts]
  have hgen : ∀ (l : List Mut) (s : Store), goodIds s → goodIds (l.foldl (applyMut shaFn) s) := by
    intro l
    induction l with
    | nil => intro s hs; exact hs
    | cons m rest ih =>
      intro s hs
      exact ih _ (applyMut_goodIds shaFn s m hs)
  exact hgen ms emptyStore goodIds_emptyStore

/-- Positional post ids within each topic of a topic list. -/
def postIdsGood (ts : List Topic) : Prop :=
  ∀ t ∈ ts, t.posts.map Post.id = idSeq t.posts.length

theorem getD_postIds (ts : List Topic) (hg : postIdsGood ts) (ti : Nat) :
    (ts.getD ti dfltTopic).posts.map Post.id =
      idSeq (ts.getD ti dfltTopic).posts.length := by
  by_cases hlt : ti < ts.length
  · rw [List.getD_eq_get ts dfltTopic hlt]
    exact hg _ (List.get_mem ts ti hlt)
  · rw [List.getD_eq_default ts dfltTopic (by omega)]
    rfl

theorem setPostFlag_ids (l : List Post) (hl : l.map Post.id = idSeq l.length)
    (pi : Nat) (v : Bool) :
    (l.set pi { l.getD pi dfltPost with isDeleted := v }).map Post.id =
      idSeq (l.set pi { l.getD pi dfltPost with isDeleted := v }).length := by
  rw [List.length_set]
  by_cases hpi : pi < l.length
  · have hmap : (l.set pi { l.getD pi dfltPost with isDeleted := v }).map Post.id =
        l.map Post.id := by
      apply map_set_same Post.id l pi _ hpi
      show ({ l.getD pi dfltPost with isDeleted := v }).id = (l.get ⟨pi, hpi⟩).id
      rw [List.getD_eq_get l dfltPost hpi]
    rw [hmap, hl]
  · rw [List.set_eq_of_length_le (by omega)]
    exact hl

theorem parseTopic_shape (line : List Char) (t : Topic) (h : parseTopic line = .ok t) :
    t.posts = [] := by
  simp only [parseTopic] at h
  split at h
  · simp at h
  · split at h
    · simp at h
    · simp only [Except.ok.injEq] at h
      rw [← h]

/-- parsePost always assigns the positional id len(topic.Posts)+1 to the
parsed post, and emits the diagnostic exactly when the record's stored id
field differs from it. -/
theorem parsePost_positional (line : List Char) (st : RState) (p : Post) (ti : Nat)
    (diag : Bool) (h : parsePost line st = .ok (p, ti, diag)) :
    p.id = ((st.topics.getD ti dfltTopic).posts.length : Int) + 1 ∧
      (diag = false ↔ atoiGo ((splitOnChar '|' line.tail).getD 1 []) = some p.id) := by
  simp only [parsePost] at h
  split at h
  · simp at h
  · split at h
    · simp at h
    · next topicId heqT =>
      split at h
      · simp at h
      · next storedId heqS =>
        split at h
        · simp at h
        · next createdOn heqC =>
          split at h
          · simp at h
          · next msgSha1 heqM =>
            split at h
            · simp at h
            · split at h
              · simp at h
              · next ti2 heqL =>
                simp only [Except.ok.injEq, Prod.mk.injEq] at h
                obtain ⟨hp, hti, hdiag⟩ := h
                subst hti
                have hid : p.id = ((st.topics.getD ti2 dfltTopic).posts.length : Int) + 1 := by
                  rw [← hp]
                refine ⟨hid, ?_⟩
                rw [heqS, hid, ← hdiag]
                simp

theorem parseLine_postIdsGood (st : RState) (line : List Char) (st2 : RState)
    (hgood : postIdsGood st.topics) (h : parseLine st line = .ok st2) :
    postIdsGood st2.topics := by
  cases line with
  | nil => simp [parseLine] at h
  | cons c rest =>
    simp only [parseLine] at h
    split_ifs at h with hT hP hD hU hB
    · cases hpt : parseTopic (c :: rest) with
      | error e => rw [hpt] at h; simp at h
      | ok t =>
        rw [hpt] at h
        simp only [Except.ok.injEq] at h
        subst h
        intro t' ht'
        rcases List.mem_append.mp ht' with hmem | hmem
        · exact hgood t' hmem
        · simp only [List.mem_singleton] at hmem
          subst hmem
          rw [parseTopic_shape _ _ hpt]
          rfl
    · cases hpp : parsePost (c :: rest) st with
      | error e => rw [hpp] at h; simp at h
      | ok pr =>
        obtain ⟨p, ti, diag⟩ := pr
        rw [hpp] at h
        simp only [Except.ok.injEq] at h
        subst h
        have hid := (parsePost_positional _ _ _ _ _ hpp).1
        intro t' ht'
        rcases List.mem_or_eq_of_mem_set ht' with hmem | rfl
        · exact hgood t' hmem
        · exact snoc_postIds _ (getD_postIds st.topics hgood ti) p hid
    · cases hfd : findPostToDelUndel (c :: rest).tail st with
      | error e => rw [hfd] at h; simp at h
      | ok ij =>
        obtain ⟨ti, pi⟩ := ij
        rw [hfd] at h
        dsimp only at h
        by_cases hdel : ((st.topics.getD ti dfltTopic).posts.getD pi dfltPost).isDeleted
        · rw [if_pos hdel] at h
          simp at h
        · rw [if_neg hdel] at h
          simp only [Except.ok.injEq] at h
          subst h
          intro t' ht'
          rcases List.mem_or_eq_of_mem_set ht' with hmem | rfl
          · exact hgood t' hmem
          · exact setPostFlag_ids _ (getD_postIds st.topics hgood ti) pi true
    · cases hfd : findPostToDelUndel (c :: rest).tail st with
      | error e => rw [hfd] at h; simp at h
      | ok ij =>
        obtain ⟨ti, pi⟩ := ij
        rw [hfd] at h
        dsimp only at h
        by_cases hdel : ((st.topics.getD ti dfltTopic).posts.getD pi dfltPost).isDeleted
        · rw [if_neg (fun hh => hh hdel)] at h
          simp only [Except.ok.injEq] at h
          subst h
          intro t' ht'
          rcases List.mem_or_eq_of_mem_set ht' with hmem | rfl
          · exact hgood t' hmem
          · exact setPostFlag_ids _ (getD_postIds st.topics hgood ti) pi false
        · rw [if_pos hdel] at h
          simp at h
    · simp only [Except.ok.injEq] at h
      subst h
      exact hgood

theorem foldLines_postIdsGood : ∀ (lines : List (List Char)) (st0 st : RState),
    postIdsGood st0.topics → foldLines st0 lines = .ok st → postIdsGood st.topics := by
  intro lines
  induction lines with
  | nil =>
    intro st0 st h0 h
    simp only [foldLines, Except.ok.injEq] at h
    subst h
    exact h0
  | cons l rest ih =>
    intro st0 st h0 h
    simp only [foldLines] at h
    cases hpl : parseLine st0 l with
    | error e => rw [hpl] at h; simp at h
    | ok st1 =>
      rw [hpl] at h
      exact ih st1 st (parseLine_postIdsGood st0 l st1 h0 hpl) h

theorem parseTopics_postIdsGood (d : List Char) (st : RState)
    (h : parseTopics d = .ok st) : postIdsGood st.topics := by
  rw [parseTopics] at h
  cases hs : splitLogLines d with
  | error e => rw [hs] at h; simp at h
  | ok lines =>
    rw [hs] at h
    apply foldLines_postIdsGood lines emptyRState st _ h
    intro t ht
    simp [emptyRState] at ht

def c6CexState : RState :=
  { topics := [{ id := 2, subject := (("x").data), posts := [] }],
    tmap := [(2, 0)], recent := [], diagCount := 0 }

/-- C6 counterexample: the claim asserts contiguous topic ids 1..N in
every state reachable by mutations AND by replay, but parseTopic trusts
the stored id field of a T record and NewStore accepts the result
(verifyTopics only prints), so replaying the log "T2|x\n" succeeds and
opens a store whose topic ids are [2], not the contiguous sequence
1..1. -/
theorem c6_counterexample_replay_noncontiguous_topic_ids :
    parseTopics (("T2|x\n").data) = .ok c6CexState ∧
      c6CexState.topics.map Topic.id ≠ idSeq c6CexState.topics.length := by
  decide

/-- C6 as amended: (1) after every sequence of mutation calls on a fresh
store, topic ids are exactly 1..N in creation order and every topic's
post ids are exactly 1..M in append order; (2) in every state a
successful replay produces, every topic's post ids are exactly 1..M —
but replay trusts a T record's stored topic id, so replay-reachable
topic ids need not be contiguous (see the counterexample); (3) parsePost
always assigns the positional id (current post count + 1), never failing
on a mismatching stored id, and emits the diagnostic exactly when the
stored id field differs from the positional id. -/
theorem c6_monotonic_positional_ids :
    (∀ (shaFn : List Char → List Nat) (ms : List Mut), goodIds (runMuts shaFn ms)) ∧
      (∀ (d : List Char) (st : RState), parseTopics d = .ok st →
        ∀ t ∈ st.topics, t.posts.map Post.id = idSeq t.posts.length) ∧
      (∀ (line : List Char) (st : RState) (p : Post) (ti : Nat) (diag : Bool),
        parsePost line st = .ok (p, ti, diag) →
        p.id = ((st.topics.getD ti dfltTopic).posts.length : Int) + 1 ∧
          (diag = false ↔ atoiGo ((splitOnChar '|' line.tail).getD 1 []) = some p.id)) :=
  ⟨runMuts_goodIds,
   fun d st h => parseTopics_postIdsGood d st h,
   fun line st p ti diag h => parsePost_positional line st p ti diag h⟩

def c6Post : Post :=
  { id := 1, createdOn := 0, messageSha1 := List.replicate 20 0,
    userNameInternal := (("bob").data), ipAddrInternal := (("01020304").data),
    isDeleted := false }

def c6Line : List Char :=
  ("P1|5|0|AAAAAAAAAAAAAAAAAAAAAAAAAAA|01020304|bob").data

def c6Log : List Char :=
  ("T1|a\n").data ++ c6Line ++ ['\n']

def c6Topic : Topic :=
  { id := 1, subject := (("a").data), posts := [c6Post] }

def c6State : RState :=
  { topics := [c6Topic], tmap := [(1, 0)], recent := [(1, 1)], diagCount := 1 }

def c6State0 : RState :=
  { topics := [{ id := 1, subject := (("a").data), posts := [] }],
    tmap := [(1, 0)], recent := [], diagCount := 0 }

/-- Witness for C6: replaying a concrete log whose P record stores id 5
at position 1 succeeds, yields positional post ids, and emits the
diagnostic. -/
theorem c6_monotonic_positional_ids_witness :
    (c6Topic.posts.map Post.id = idSeq c6Topic.posts.length) ∧
      (c6Post.id = ((c6State0.topics.getD 0 dfltTopic).posts.length : Int) + 1 ∧
        (true = false ↔ atoiGo ((splitOnChar '|' c6Line.tail).getD 1 []) = some c6Post.id)) :=
  ⟨c6_monotonic_positional_ids.2.1 c6Log c6State (by decide) c6Topic (by decide),
   c6_monotonic_positional_ids.2.2 c6Line c6State0 c6Post 0 true (by decide)⟩
